import Mathlib

/-!
Verification of the card layout and compositing engine of `cards.py`
(`PDFCardGenerator`).  The Python code is shallowly embedded: geometric
quantities are exact rationals (reportlab points, `cm = 72/2.54`), the PIL
mask construction is a pair of fill operations on an integer pixel grid,
the adaptive text fitter is a recursive shrink loop, a rendered card is the
list of drawing operations emitted by `draw_card`, and the PDF pagination
loop of `generate_pdf` is a recursion over the deck carrying the current
page and the emitted pages.
-/

namespace Cards

/-- One reportlab centimetre in points: `cm = 72 / 2.54`. -/
def cmPts : ℚ := 3600 / 127

/-- One reportlab millimetre in points: `mm = 72 / 25.4`. -/
def mmPts : ℚ := 360 / 127

/-- `self.card_width = 9.57 * cm`. -/
def cardWidth : ℚ := (957 / 100) * cmPts

/-- `self.card_height = 6.67 * cm`. -/
def cardHeight : ℚ := (667 / 100) * cmPts

/-- `self.corner_radius = 10 * mm`. -/
def cornerRadius : ℚ := 10 * mmPts

/-- `self.img_width = 8.25 * cm`. -/
def imgWidth : ℚ := (825 / 100) * cmPts

/-- `self.img_height = 5.5 * cm`. -/
def imgHeight : ℚ := (55 / 10) * cmPts

/-- `dpi_multiplier = 300 / 72` in `create_rounded_corner_image`. -/
def dpiMultiplier : ℚ := 300 / 72

/-- `target_width = int(self.img_width * dpi_multiplier)`; Python `int()`
truncates, and the value is positive, so this is the floor. -/
def targetWidthPx : ℤ := Int.floor (imgWidth * dpiMultiplier)

/-- `target_height = int(self.img_height * dpi_multiplier)`. -/
def targetHeightPx : ℤ := Int.floor (imgHeight * dpiMultiplier)

/-- `radius = int(self.corner_radius * dpi_multiplier)`. -/
def radiusPx : ℤ := Int.floor (cornerRadius * dpiMultiplier)

/-! ### The PIL mask of `create_rounded_corner_image`

A single-channel image is a function from pixel coordinates to a value.
`ImageDraw.rectangle([x0,y0,x1,y1], fill=v)` fills the inclusive box,
`ImageDraw.ellipse([x0,y0,x1,y1], fill=v)` with a square bounding box
`[0, 0, 2r, 2r]` fills the disc of radius `r` centred at pixel `(r, r)`
(the bounding box is inclusive, so it spans `2r+1` pixels and the disc is
modelled as the ideal disc `(x-cx)^2 + (y-cy)^2 ≤ r^2`). -/

/-- `draw.rectangle([x0, y0, x1, y1], fill=v)` on a mask. -/
def fillRect (v : ℕ) (x0 y0 x1 y1 : ℤ) (m : ℤ → ℤ → ℕ) : ℤ → ℤ → ℕ :=
  fun x y => if x0 ≤ x ∧ x ≤ x1 ∧ y0 ≤ y ∧ y ≤ y1 then v else m x y

/-- A filled disc of radius `rad` centred at `(cx, cy)` drawn with value `v`
(the semantics of `draw.ellipse` with a square bounding box). -/
def fillDisc (v : ℕ) (cx cy rad : ℤ) (m : ℤ → ℤ → ℕ) : ℤ → ℤ → ℕ :=
  fun x y => if (x - cx) ^ 2 + (y - cy) ^ 2 ≤ rad ^ 2 then v else m x y

/-- The alpha mask built by `create_rounded_corner_image`: start from a mask
that is 255 everywhere (`Image.new('L', img.size, 255)`), black out the
top-left corner with `draw.rectangle([0, 0, radius, radius], fill=0)`, then
`draw.ellipse([0, 0, radius * 2, radius * 2], fill=255)` — a disc of radius
`radius` centred at `(radius, radius)`.  `img.putalpha(mask)` makes this the
panel's alpha channel. -/
def codeMask (r : ℤ) : ℤ → ℤ → ℕ :=
  fillDisc 255 r r r (fillRect 0 0 0 r r (fun _ _ => 255))

/-- Modelled from the spec: the spec's step 4 says the mask is 255
everywhere, the top-left `radius×radius` box is filled with 0, and then a
filled circle of radius `radius` centred at `(0,0)` is drawn with value
255.  This differs from the code only in the circle's centre. -/
def specMask (r : ℤ) : ℤ → ℤ → ℕ :=
  fillDisc 255 0 0 r (fillRect 0 0 0 r r (fun _ _ => 255))

/-! ### The adaptive text fitter of `draw_card` -/

/-- `flag_size = 1 * cm`. -/
def flagSize : ℚ := cmPts

/-- `gap = 0.2 * cm` between the flag and the city label. -/
def textGap : ℚ := (2 / 10) * cmPts

/-- `text_area_width = self.img_width`. -/
def textAreaWidth : ℚ := imgWidth

/-- reportlab's `stringWidth(text, font, size)` is proportional to `size`:
it is the sum of the font's per-character unit widths scaled by
`size / 1000`.  The per-character table `cw` is the active font's metric,
a parameter of the model. -/
def unitsOf (cw : Char → ℚ) (l : List Char) : ℚ := (l.map cw).sum

/-- `c.stringWidth(city_text, font, size)` for a label of unit width `u`. -/
def widthAt (u : ℚ) (size : ℕ) : ℚ := (size : ℚ) * u / 1000

/-- The two-tier margin: `is_long_text = (flag_size + gap + city_text_width) >
(text_area_width * 0.7)` measured at the base size 16; long labels get
`left_margin = 0.5 * cm`, short ones `1.2 * cm`. -/
def leftMarginOf (u : ℚ) : ℚ :=
  if flagSize + textGap + widthAt u 16 > textAreaWidth * (7 / 10)
  then (5 / 10) * cmPts else (12 / 10) * cmPts

/-- `right_margin = 0.2 * cm` in both branches. -/
def rightMargin : ℚ := (2 / 10) * cmPts

/-- `available_width = text_area_width - left_margin - right_margin`. -/
def availOf (u : ℚ) : ℚ := textAreaWidth - leftMarginOf u - rightMargin

/-- The shrink loop `while total_content_width > available_width and
city_font_size > 8: city_font_size -= 1` (with the label re-measured at the
new size each step), started at font size `s`. -/
def fitFrom (u avail : ℚ) : ℕ → ℕ
  | 0 => 0
  | s + 1 =>
      if flagSize + textGap + widthAt u (s + 1) > avail ∧ 8 < s + 1
      then fitFrom u avail s
      else s + 1

/-- The final city font size for a label of unit width `u`: the loop started
at the base font size 16 against the label's available width. -/
def fitSize (u : ℚ) : ℕ := fitFrom u (availOf u) 16

/-! ### The card renderer `draw_card` -/

/-- The value of a `transport` field: either a JSON list of icon names or a
non-list value (for which `isinstance(card_data['transport'], list)` is
false, e.g. a plain string). -/
inductive TransportField where
  | listVal : List String → TransportField
  | nonList : String → TransportField
  deriving DecidableEq

/-- One card record, `card_data` in `cards.py`.  Every field is optional;
`draw_card` reads the missing ones through `dict.get` defaults
(`city → "City"`, `country → "Country"`, `corner_number → "1"`,
`corner_font_size → 16`) or skips the element. -/
structure CardRecord where
  image : Option String := none
  flag : Option String := none
  continent : Option String := none
  transport : Option TransportField := none
  city : Option String := none
  country : Option String := none
  corner_number : Option String := none
  corner_font_size : Option ℚ := none
  deriving DecidableEq

/-- One drawing operation emitted to the reportlab canvas by `draw_card`.
`rotatedIcon` packs the `saveState / translate(tx,ty) / rotate(rot) /
drawImage(ox, oy, w, h) / restoreState` sequence used for transport icons. -/
inductive DrawOp where
  | panelImage (asset : String) (x y w h : ℚ) (pxW pxH : ℤ)
  | plainImage (asset : String) (x y w h : ℚ)
  | drawString (s : String) (x y size : ℚ)
  | drawCentredString (s : String) (x y size : ℚ)
  | rotatedIcon (asset : String) (tx ty rot ox oy w h : ℚ)
  | roundRect (x y w h radius lineWidth : ℚ)
  | strokeLine (x1 y1 x2 y2 : ℚ)
  deriving DecidableEq

/-- The asset or text argument of an operation. -/
def DrawOp.opAsset : DrawOp → String
  | .panelImage a _ _ _ _ _ _ => a
  | .plainImage a _ _ _ _ => a
  | .drawString s _ _ _ => s
  | .drawCentredString s _ _ _ => s
  | .rotatedIcon a _ _ _ _ _ _ _ => a
  | _ => ""

/-- The `translate` x-coordinate of a rotated icon (its rotation centre). -/
def DrawOp.opTx : DrawOp → ℚ
  | .rotatedIcon _ tx _ _ _ _ _ _ => tx
  | _ => 0

/-- The `translate` y-coordinate of a rotated icon (its rotation centre). -/
def DrawOp.opTy : DrawOp → ℚ
  | .rotatedIcon _ _ ty _ _ _ _ _ => ty
  | _ => 0

/-- The rotation angle of a rotated icon. -/
def DrawOp.opRot : DrawOp → ℚ
  | .rotatedIcon _ _ _ rot _ _ _ _ => rot
  | _ => 0

/-- The x-offset at which a rotated icon's rect is drawn, relative to the
rotation centre. -/
def DrawOp.opOx : DrawOp → ℚ
  | .rotatedIcon _ _ _ _ ox _ _ _ => ox
  | _ => 0

/-- The y-offset at which a rotated icon's rect is drawn. -/
def DrawOp.opOy : DrawOp → ℚ
  | .rotatedIcon _ _ _ _ _ oy _ _ => oy
  | _ => 0

/-- The width of a rotated icon's rect. -/
def DrawOp.opW : DrawOp → ℚ
  | .rotatedIcon _ _ _ _ _ _ w _ => w
  | _ => 0

/-- The height of a rotated icon's rect. -/
def DrawOp.opH : DrawOp → ℚ
  | .rotatedIcon _ _ _ _ _ _ _ h => h
  | _ => 0

/-- The environment a card render runs in: which assets open successfully
and the active font's per-character width table. -/
structure RenderEnv where
  openImageOk : String → Bool
  flagOk : String → Bool
  continentOk : String → Bool
  charWidth : Char → ℚ

/-- `icon_size = 1.0 * cm` in the transport section. -/
def iconSize : ℚ := cmPts

/-- `icon_spacing = 0.1 * cm`. -/
def iconSpacing : ℚ := (1 / 10) * cmPts

/-- `total_icon_height = transport_count * icon_size +
(transport_count - 1) * icon_spacing` (computed with Python integers, so
it is `-0.1cm` for an empty list). -/
def totalIconHeightOf (n : ℕ) : ℚ := (n : ℚ) * iconSize + ((n : ℚ) - 1) * iconSpacing

/-- The transport-icon column of `draw_card`: each icon is drawn after
`translate` to its own centre and `rotate(90)`, stacked downwards from
`icon_start_y = sidebar_y_start + (img_height - total_icon_height)/2 +
total_icon_height - icon_size - 0.5*cm`. -/
def transportOps (x y : ℚ) (icons : List String) : List DrawOp :=
  let sidebarWidth := cardWidth - imgWidth
  let iconX := x + imgWidth + (sidebarWidth - iconSize) / 2
  let totalIconHeight := totalIconHeightOf icons.length
  let sidebarYStart := y + cardHeight - imgHeight
  let iconStartY :=
    sidebarYStart + (imgHeight - totalIconHeight) / 2 + totalIconHeight - iconSize
      - (5 / 10) * cmPts
  icons.enum.map fun p =>
    DrawOp.rotatedIcon (p.2 ++ ".png")
      (iconX + iconSize / 2)
      (iconStartY - (p.1 : ℚ) * (iconSize + iconSpacing) + iconSize / 2)
      90 (-(iconSize / 2)) (-(iconSize / 2)) iconSize iconSize

/-- `draw_card(c, x, y, card_data)`: the sequence of canvas operations for
one card, in source order — panel, flag, city, country, continent badge,
transport column, corner number, card border, image border (vertical then
horizontal stroke).  A failing main image or optional asset contributes no
operation (the surrounding `try/except` absorbs the error). -/
def drawCard (env : RenderEnv) (x y : ℚ) (r : CardRecord) : List DrawOp :=
  let panelOps : List DrawOp :=
    match r.image with
    | some p =>
        if env.openImageOk p
        then [DrawOp.panelImage p x (y + cardHeight - imgHeight) imgWidth imgHeight
                targetWidthPx targetHeightPx]
        else []
    | none => []
  let cityText := r.city.getD "City"
  let u := unitsOf env.charWidth cityText.data
  let lm := leftMarginOf u
  let citySize := fitSize u
  let flagX := x + lm
  let textX := flagX + flagSize + textGap
  let textY := y + (55 / 100) * cmPts
  let flagOps : List DrawOp :=
    match r.flag with
    | some f =>
        if env.flagOk f
        then [DrawOp.plainImage f flagX (y + (25 / 100) * cmPts) flagSize
                (flagSize * (67 / 100))]
        else []
    | none => []
  let continentOps : List DrawOp :=
    match r.continent with
    | some cn =>
        if env.continentOk cn
        then [DrawOp.plainImage (cn ++ "_outline.png")
                (x + cardWidth - (13 / 10) * cmPts - (1 / 10) * cmPts)
                (y + cardHeight - (13 / 10) * cmPts - (2 / 10) * cmPts)
                ((13 / 10) * cmPts) ((13 / 10) * cmPts)]
        else []
    | none => []
  let transportColumn : List DrawOp :=
    match r.transport with
    | some (TransportField.listVal icons) => transportOps x y icons
    | _ => []
  let cfs := r.corner_font_size.getD 16
  panelOps ++ flagOps
    ++ [DrawOp.drawString cityText textX textY (citySize : ℚ)]
    ++ [DrawOp.drawString (r.country.getD "Country") textX (textY - (4 / 10) * cmPts) 10]
    ++ continentOps
    ++ transportColumn
    ++ [DrawOp.drawCentredString (r.corner_number.getD "1")
          (x + imgWidth + (cardWidth - imgWidth) / 2)
          (y + (cardHeight - imgHeight) / 2 - cfs / 4) cfs]
    ++ [DrawOp.roundRect x y cardWidth cardHeight cornerRadius 2,
        DrawOp.strokeLine (x + imgWidth)
          ((y + cardHeight - imgHeight) - (cardHeight - imgHeight))
          (x + imgWidth) ((y + cardHeight - imgHeight) + imgHeight),
        DrawOp.strokeLine x (y + cardHeight - imgHeight)
          (x + cardWidth) (y + cardHeight - imgHeight)]

/-- A concrete environment in which no asset opens. -/
def failEnv : RenderEnv := ⟨fun _ => false, fun _ => false, fun _ => false, fun _ => 0⟩

/-- A concrete record whose only field is a main image. -/
def imageOnlyRecord : CardRecord := { image := some "brno.jpg" }

/-! ### The pagination loop of `generate_pdf`

A reportlab page is emitted by each `showPage()` call, and `save()` emits a
final page exactly when operations were drawn since the last page break
(per the spec, an empty deck produces an empty document).  The loop draws
card `i` into the current page and calls `showPage()` when
`card_count % cards_per_page == 0 and card_count < len(cards_data)`
(`card_count` is `i + 1`). -/

/-- The pagination loop: `rest` are the cards still to draw, `count` the
cards drawn so far, `cur` the cards on the open page, `pages` the emitted
pages. -/
def goPages {α : Type} (total : ℕ) :
    List α → ℕ → List α → List (List α) → List (List α)
  | [], _, cur, pages =>
      match cur with
      | [] => pages
      | _ => pages ++ [cur]
  | a :: rest, count, cur, pages =>
      if (count + 1) % 9 = 0 ∧ count + 1 < total
      then goPages total rest (count + 1) [] (pages ++ [cur ++ [a]])
      else goPages total rest (count + 1) (cur ++ [a]) pages

/-- The pages emitted by `generate_pdf(cards_data)`, each page listed as
the cards drawn on it in drawing order. -/
def generatePdfPages {α : Type} (deck : List α) : List (List α) :=
  goPages deck.length deck 0 [] []

/-- The deck split into consecutive chunks of 9 — the intended page
structure. -/
def chunk9 {α : Type} : List α → List (List α)
  | [] => []
  | a :: rest => ((a :: rest).take 9) :: chunk9 ((a :: rest).drop 9)
termination_by l => l.length
decreasing_by simp [List.length_drop]; omega

/-- A concrete ten-record deck (all records empty). -/
def sampleDeck : List CardRecord := List.replicate 10 {}

end Cards

namespace Cards

/-- Concrete pixel values of the supersampled panel: `974 = int(8.25cm × 300/72)`,
`649 = int(5.5cm × 300/72)`, `118 = int(10mm × 300/72)`. -/
theorem targetPx_values : targetWidthPx = 974 ∧ targetHeightPx = 649 ∧ radiusPx = 118 := by
  refine ⟨?_, ?_, ?_⟩
  · unfold targetWidthPx
    rw [Int.floor_eq_iff]
    norm_num [imgWidth, cmPts, dpiMultiplier]
  · unfold targetHeightPx
    rw [Int.floor_eq_iff]
    norm_num [imgHeight, cmPts, dpiMultiplier]
  · unfold radiusPx
    rw [Int.floor_eq_iff]
    norm_num [cornerRadius, mmPts, dpiMultiplier]

/-- C2: the rounded-corner alpha mask vanishes at the top-left pixel, is 255
at the bottom-right pixel, and the three corners other than the top-left one
are fully opaque throughout their `r×r` boxes. -/
theorem mask_corner_spec (r W H : ℤ) (h1 : 1 ≤ r) (h2 : 2 * r < W) (h3 : 2 * r < H) :
    codeMask r 0 0 = 0 ∧
    codeMask r (W - 1) (H - 1) = 255 ∧
    (∀ x y : ℤ, W - r ≤ x → x ≤ W - 1 → 0 ≤ y → y ≤ r - 1 → codeMask r x y = 255) ∧
    (∀ x y : ℤ, 0 ≤ x → x ≤ r - 1 → H - r ≤ y → y ≤ H - 1 → codeMask r x y = 255) ∧
    (∀ x y : ℤ, W - r ≤ x → x ≤ W - 1 → H - r ≤ y → y ≤ H - 1 → codeMask r x y = 255) := by
  refine ⟨?_, ?_, ?_, ?_, ?_⟩
  · unfold codeMask fillDisc fillRect
    rw [if_neg, if_pos]
    · exact ⟨le_refl 0, by omega, le_refl 0, by omega⟩
    · intro hc
      nlinarith
  · unfold codeMask fillDisc fillRect
    split
    · rfl
    · rw [if_neg]
      intro ⟨_, hx, _, _⟩
      omega
  · intro x y hx1 hx2 hy1 hy2
    unfold codeMask fillDisc fillRect
    split
    · rfl
    · rw [if_neg]
      intro ⟨_, hxr, _, _⟩
      omega
  · intro x y hx1 hx2 hy1 hy2
    unfold codeMask fillDisc fillRect
    split
    · rfl
    · rw [if_neg]
      intro ⟨_, _, _, hyr⟩
      omega
  · intro x y hx1 hx2 hy1 hy2
    unfold codeMask fillDisc fillRect
    split
    · rfl
    · rw [if_neg]
      intro ⟨_, hxr, _, _⟩
      omega

/-- C2 witness: the theorem instantiated at the code's actual supersampled
dimensions, `radius = 118`, panel `974 × 649` pixels. -/
theorem mask_corner_spec_witness :
    ((1:ℤ) ≤ 118 ∧ 2 * 118 < (974:ℤ) ∧ 2 * 118 < (649:ℤ)) ∧
    (codeMask 118 0 0 = 0 ∧
     codeMask 118 (974 - 1) (649 - 1) = 255 ∧
     (∀ x y : ℤ, 974 - 118 ≤ x → x ≤ 974 - 1 → 0 ≤ y → y ≤ 118 - 1 → codeMask 118 x y = 255) ∧
     (∀ x y : ℤ, 0 ≤ x → x ≤ 118 - 1 → 649 - 118 ≤ y → y ≤ 649 - 1 → codeMask 118 x y = 255) ∧
     (∀ x y : ℤ, 974 - 118 ≤ x → x ≤ 974 - 1 → 649 - 118 ≤ y → y ≤ 649 - 1 →
        codeMask 118 x y = 255)) :=
  ⟨⟨by norm_num, by norm_num, by norm_num⟩,
   mask_corner_spec 118 974 649 (by norm_num) (by norm_num) (by norm_num)⟩

/-- C3 counterexample: at the code's radius 118, the mask the code builds and
the mask described by the spec (circle centred at `(0,0)`) disagree at the
top-left pixel: the code gives alpha 0 there, the spec's words give 255. -/
theorem mask_ne_specMask : codeMask 118 0 0 ≠ specMask 118 0 0 := by
  norm_num [codeMask, specMask, fillDisc, fillRect]

/-- C3 amended: the code's mask is exactly the union of "outside the top-left
`radius×radius` box" and "inside the disc of radius `radius` centred at
`(radius, radius)`" (value 255), everything else 0 — the spec's description
with the circle's centre corrected from `(0,0)` to `(radius, radius)`. -/
theorem mask_union_characterization (r x y : ℤ) :
    codeMask r x y =
      if (x - r) ^ 2 + (y - r) ^ 2 ≤ r ^ 2 ∨ ¬(0 ≤ x ∧ x ≤ r ∧ 0 ≤ y ∧ y ≤ r)
      then 255 else 0 := by
  unfold codeMask fillDisc fillRect
  split_ifs <;> tauto

/-- C7 counterexample: the code truncates with `int()`, so the supersampled
panel height is `int(5.5cm × 300/72) = 649`, while the spec's
`round(panel_size_units × supersample_factor)` would give 650
(`5.5 × 3600/127 × 25/6 = 82500/127 ≈ 649.606`). -/
theorem targetHeightPx_ne_round : targetHeightPx ≠ round (imgHeight * dpiMultiplier) := by
  have h1 : targetHeightPx = 649 := by
    unfold targetHeightPx
    rw [Int.floor_eq_iff]
    norm_num [imgHeight, cmPts, dpiMultiplier]
  have h2 : round (imgHeight * dpiMultiplier) = 650 := by
    rw [round_eq, Int.floor_eq_iff]
    norm_num [imgHeight, cmPts, dpiMultiplier]
  rw [h1, h2]
  norm_num

theorem fitFrom_succ (u avail : ℚ) (s : ℕ) :
    fitFrom u avail (s + 1) =
      if flagSize + textGap + widthAt u (s + 1) > avail ∧ 8 < s + 1
      then fitFrom u avail s
      else s + 1 := rfl

theorem fitFrom_le (u avail : ℚ) : ∀ s : ℕ, fitFrom u avail s ≤ s := by
  intro s
  induction s with
  | zero => exact le_refl 0
  | succ s ih =>
    rw [fitFrom_succ]
    split
    · exact le_trans ih (Nat.le_succ s)
    · exact le_refl _

theorem fitFrom_ge (u avail : ℚ) : ∀ s : ℕ, 8 ≤ s → 8 ≤ fitFrom u avail s := by
  intro s
  induction s with
  | zero => intro h; omega
  | succ s ih =>
    intro _
    rw [fitFrom_succ]
    by_cases hc : flagSize + textGap + widthAt u (s + 1) > avail ∧ 8 < s + 1
    · rw [if_pos hc]
      exact ih (by omega)
    · rw [if_neg hc]
      by_cases h8 : 8 ≤ s + 1
      · exact h8
      · exfalso
        -- the loop guard `8 < s + 1` fails only when `s + 1 ≤ 8`, and we
        -- only reach sizes `≥ 8` starting from 16, so this branch returns
        -- `s + 1 ≥ 8` whenever the start was `≥ 8`; here the start is `s+1`.
        omega

theorem widthAt_mono {u v : ℚ} (huv : u ≤ v) (s : ℕ) : widthAt u s ≤ widthAt v s := by
  unfold widthAt
  have h0 : (0 : ℚ) ≤ (s : ℚ) := by positivity
  have := mul_le_mul_of_nonneg_left huv h0
  linarith

theorem fitFrom_anti (avail : ℚ) {u v : ℚ} (huv : u ≤ v) :
    ∀ s : ℕ, fitFrom v avail s ≤ fitFrom u avail s := by
  intro s
  induction s with
  | zero => exact le_refl _
  | succ s ih =>
    rw [fitFrom_succ, fitFrom_succ]
    by_cases hu : flagSize + textGap + widthAt u (s + 1) > avail ∧ 8 < s + 1
    · have hv : flagSize + textGap + widthAt v (s + 1) > avail ∧ 8 < s + 1 := by
        refine ⟨?_, hu.2⟩
        have := widthAt_mono huv (s + 1)
        linarith [hu.1]
      rw [if_pos hu, if_pos hv]
      exact ih
    · rw [if_neg hu]
      split
      · exact le_trans (fitFrom_le v avail s) (Nat.le_succ s)
      · exact le_refl _

theorem availOf_of_not_long {u : ℚ}
    (h : ¬ flagSize + textGap + widthAt u 16 > textAreaWidth * (7 / 10)) :
    availOf u = textAreaWidth - (12 / 10) * cmPts - rightMargin := by
  unfold availOf leftMarginOf
  rw [if_neg h]

theorem availOf_of_long {u : ℚ}
    (h : flagSize + textGap + widthAt u 16 > textAreaWidth * (7 / 10)) :
    availOf u = textAreaWidth - (5 / 10) * cmPts - rightMargin := by
  unfold availOf leftMarginOf
  rw [if_pos h]

/-- A label classified short at size 16 already fits at size 16: the
short-label available width `8.25cm − 1.2cm − 0.2cm` exceeds the 70%
threshold `0.7 × 8.25cm`, so the shrink loop exits immediately. -/
theorem fitSize_of_not_long {u : ℚ}
    (h : ¬ flagSize + textGap + widthAt u 16 > textAreaWidth * (7 / 10)) :
    fitSize u = 16 := by
  unfold fitSize
  have h16 : (16 : ℕ) = 15 + 1 := rfl
  rw [h16, fitFrom_succ, if_neg]
  intro hc
  push_neg at h
  have hav := availOf_of_not_long (by push_neg; exact h)
  rw [hav] at hc
  have hc1 := hc.1
  have h1516 : (15 + 1 : ℕ) = 16 := rfl
  rw [h1516] at hc1
  have key : textAreaWidth * (7 / 10) ≤ textAreaWidth - (12 / 10) * cmPts - rightMargin := by
    norm_num [textAreaWidth, imgWidth, rightMargin, cmPts]
  linarith

/-- C4 counterexample: a label measuring exactly `5 cm` at the base size is
at most 70% of the available width (`0.7 × 8.25cm = 5.775cm`), yet the code
classifies it long (`1cm + 0.2cm + 5cm = 6.2cm > 5.775cm`) and gives it the
0.5 cm margin, not the 1.2 cm one the claim requires. -/
theorem leftMargin_claim_counterexample :
    widthAt ((625 / 2) * cmPts) 16 ≤ textAreaWidth * (7 / 10) ∧
    leftMarginOf ((625 / 2) * cmPts) = (5 / 10) * cmPts ∧
    (5 / 10) * cmPts ≠ (12 / 10) * cmPts := by
  refine ⟨?_, ?_, ?_⟩
  · norm_num [widthAt, textAreaWidth, imgWidth, cmPts]
  · unfold leftMarginOf
    rw [if_pos]
    norm_num [widthAt, textAreaWidth, imgWidth, flagSize, textGap, cmPts]
  · norm_num [cmPts]

/-- C4 amended: the two-tier classification compares
`icon_width + gap + measured_width` (not the measured width alone) with
70% of the available region width; above the threshold the left margin is
0.5 cm, at or below it 1.2 cm. -/
theorem leftMargin_threshold (u : ℚ) :
    (flagSize + textGap + widthAt u 16 > textAreaWidth * (7 / 10) →
      leftMarginOf u = (5 / 10) * cmPts) ∧
    (flagSize + textGap + widthAt u 16 ≤ textAreaWidth * (7 / 10) →
      leftMarginOf u = (12 / 10) * cmPts) := by
  unfold leftMarginOf
  constructor
  · intro h
    rw [if_pos h]
  · intro h
    rw [if_neg (not_lt.mpr h)]

/-- C4 witness: the amended theorem applied to the 5 cm label, which is long
under the code's classification. -/
theorem leftMargin_threshold_witness :
    flagSize + textGap + widthAt ((625 / 2) * cmPts) 16 > textAreaWidth * (7 / 10) ∧
    leftMarginOf ((625 / 2) * cmPts) = (5 / 10) * cmPts :=
  ⟨by norm_num [widthAt, textAreaWidth, imgWidth, flagSize, textGap, cmPts],
   (leftMargin_threshold ((625 / 2) * cmPts)).1
     (by norm_num [widthAt, textAreaWidth, imgWidth, flagSize, textGap, cmPts])⟩

theorem unitsOf_append (cw : Char → ℚ) (l t : List Char) :
    unitsOf cw (l ++ t) = unitsOf cw l + unitsOf cw t := by
  unfold unitsOf
  rw [List.map_append, List.sum_append]

theorem unitsOf_nonneg (cw : Char → ℚ) (hcw : ∀ ch : Char, 0 ≤ cw ch) (l : List Char) :
    0 ≤ unitsOf cw l := by
  unfold unitsOf
  apply List.sum_nonneg
  intro q hq
  obtain ⟨ch, _, rfl⟩ := List.mem_map.mp hq
  exact hcw ch

/-- C5: for a nonnegative font metric, extending the label (increasing its
length while holding everything else fixed) can only shrink or keep the
fitted font size, and the fitted size never drops below the floor 8. -/
theorem fitSize_antitone_and_floor (cw : Char → ℚ) (hcw : ∀ ch : Char, 0 ≤ cw ch)
    (l t : List Char) :
    fitSize (unitsOf cw (l ++ t)) ≤ fitSize (unitsOf cw l) ∧
    8 ≤ fitSize (unitsOf cw l) ∧
    8 ≤ fitSize (unitsOf cw (l ++ t)) := by
  have hle : unitsOf cw l ≤ unitsOf cw (l ++ t) := by
    rw [unitsOf_append]
    have := unitsOf_nonneg cw hcw t
    linarith
  refine ⟨?_, fitFrom_ge _ _ 16 (by omega), fitFrom_ge _ _ 16 (by omega)⟩
  by_cases hlong : flagSize + textGap + widthAt (unitsOf cw l) 16 > textAreaWidth * (7 / 10)
  · have hlong2 : flagSize + textGap + widthAt (unitsOf cw (l ++ t)) 16 >
        textAreaWidth * (7 / 10) := by
      have := widthAt_mono hle 16
      linarith
    unfold fitSize
    rw [availOf_of_long hlong, availOf_of_long hlong2]
    exact fitFrom_anti _ hle 16
  · rw [fitSize_of_not_long hlong]
    exact le_trans (fitFrom_le _ _ 16) (le_refl 16)

/-- C5 witness: the theorem at the constant-width metric 600 units per
character, with the label `"Pa"` extended to `"Paris"`. -/
theorem fitSize_antitone_and_floor_witness :
    (∀ ch : Char, (0 : ℚ) ≤ (fun _ : Char => (600 : ℚ)) ch) ∧
    (fitSize (unitsOf (fun _ : Char => (600 : ℚ)) (['P', 'a'] ++ ['r', 'i', 's'])) ≤
       fitSize (unitsOf (fun _ : Char => (600 : ℚ)) ['P', 'a']) ∧
     8 ≤ fitSize (unitsOf (fun _ : Char => (600 : ℚ)) ['P', 'a']) ∧
     8 ≤ fitSize (unitsOf (fun _ : Char => (600 : ℚ)) (['P', 'a'] ++ ['r', 'i', 's']))) :=
  ⟨fun _ => by norm_num,
   fitSize_antitone_and_floor (fun _ : Char => (600 : ℚ)) (fun _ => by norm_num)
     ['P', 'a'] ['r', 'i', 's']⟩

/-- C6 counterexample: for a single transport icon at card origin `(0,0)`,
the icon's centre sits at `3.42 cm`, not at the sidebar's panel-height
midpoint `(card_height − img_height) + img_height/2 = 3.92 cm`: the block is
not vertically centred (the code shifts it down by the extra `- 0.5 * cm`
in `icon_start_y`). -/
theorem transport_column_not_centered :
    (transportOps 0 0 ["car"]).map DrawOp.opTy
      ≠ [0 + cardHeight - imgHeight + imgHeight / 2] := by
  norm_num [transportOps, List.enum, List.enumFrom, DrawOp.opTy, totalIconHeightOf,
    iconSize, iconSpacing, cardHeight, imgHeight, cmPts]

/-- C6 amended: the transport column keeps the list order top-to-bottom,
rotates every icon 90° about its own centre (the image rect of size
`icon_size × icon_size` is drawn at offset `(-icon_size/2, -icon_size/2)`
from the rotation origin), stacks at the fixed pitch
`icon_size + icon_spacing` in the horizontal middle of the sidebar, and the
block is vertically centred in the sidebar's panel-height span **shifted
down by 0.5 cm**: the `i`-th icon centre sits at `span_midpoint − 0.5cm +
total_height/2 − icon_size/2 − i × (icon_size + icon_spacing)`. -/
theorem transport_column_layout (x y : ℚ) (icons : List String) :
    ((transportOps x y icons).map DrawOp.opAsset = icons.map (fun nm => nm ++ ".png")) ∧
    ((transportOps x y icons).map DrawOp.opRot = List.replicate icons.length 90) ∧
    ((transportOps x y icons).map DrawOp.opOx = List.replicate icons.length (-(iconSize / 2))) ∧
    ((transportOps x y icons).map DrawOp.opOy = List.replicate icons.length (-(iconSize / 2))) ∧
    ((transportOps x y icons).map DrawOp.opW = List.replicate icons.length iconSize) ∧
    ((transportOps x y icons).map DrawOp.opH = List.replicate icons.length iconSize) ∧
    ((transportOps x y icons).map DrawOp.opTx =
      List.replicate icons.length
        (x + imgWidth + (cardWidth - imgWidth - iconSize) / 2 + iconSize / 2)) ∧
    ((transportOps x y icons).map DrawOp.opTy =
      (List.range icons.length).map (fun i : ℕ =>
        (y + cardHeight - imgHeight + imgHeight / 2) - (5 / 10) * cmPts
          + totalIconHeightOf icons.length / 2 - iconSize / 2
          - (i : ℚ) * (iconSize + iconSpacing))) := by
  refine ⟨?_, ?_, ?_, ?_, ?_, ?_, ?_, ?_⟩
  · have hrhs : icons.map (fun nm => nm ++ ".png")
        = icons.enum.map ((fun nm => nm ++ ".png") ∘ Prod.snd) := by
      rw [← List.map_map, List.enum_map_snd]
    rw [hrhs]
    simp only [transportOps, List.map_map]
    rw [List.map_eq_map_iff]
    intro p _
    simp [DrawOp.opAsset]
  pick_goal 7
  · have hrhs : (List.range icons.length).map (fun i : ℕ =>
        (y + cardHeight - imgHeight + imgHeight / 2) - (5 / 10) * cmPts
          + totalIconHeightOf icons.length / 2 - iconSize / 2
          - (i : ℚ) * (iconSize + iconSpacing))
        = icons.enum.map ((fun i : ℕ =>
            (y + cardHeight - imgHeight + imgHeight / 2) - (5 / 10) * cmPts
              + totalIconHeightOf icons.length / 2 - iconSize / 2
              - (i : ℚ) * (iconSize + iconSpacing)) ∘ Prod.fst) := by
      rw [← List.map_map, List.enum_map_fst]
    rw [hrhs]
    simp only [transportOps, List.map_map]
    rw [List.map_eq_map_iff]
    intro p _
    simp only [Function.comp_apply, DrawOp.opTy]
    ring
  all_goals
    rw [List.eq_replicate_iff]
    refine ⟨by simp [transportOps], ?_⟩
    intro q hq
    simp only [transportOps, List.map_map, List.mem_map] at hq
    obtain ⟨p, _, rfl⟩ := hq
    simp [DrawOp.opRot, DrawOp.opOx, DrawOp.opOy, DrawOp.opW, DrawOp.opH, DrawOp.opTx]


/-- C8: a record with no `transport` key renders to exactly the same
operation list as the same record with `transport = []` — in both cases no
icon is drawn and nothing else changes. -/
theorem drawCard_transport_missing_eq_empty (env : RenderEnv) (x y : ℚ) (r : CardRecord) :
    drawCard env x y { r with transport := none } =
    drawCard env x y { r with transport := some (TransportField.listVal []) } := rfl

/-- C10: a record whose `transport` value is not a list (the `isinstance`
guard fails) renders identically to the same record with the field absent:
the whole icon column is skipped, without error. -/
theorem drawCard_transport_nonlist_eq_missing (env : RenderEnv) (x y : ℚ) (r : CardRecord)
    (s : String) :
    drawCard env x y { r with transport := some (TransportField.nonList s) } =
    drawCard env x y { r with transport := none } := rfl

/-- C9: if the main panel image fails to open, the card renders exactly as
the same record without an `image` field — only the panel operation is
missing, everything else (text, flag, badge, icons, borders) is unchanged,
and the failure is absorbed inside the card. -/
theorem drawCard_image_failure (env : RenderEnv) (x y : ℚ) (r : CardRecord) (p : String)
    (himg : r.image = some p) (hfail : env.openImageOk p = false) :
    drawCard env x y r = drawCard env x y { r with image := none } := by
  simp [drawCard, himg, hfail]

/-- C9 witness: the environment in which nothing opens, applied to a record
whose only field is `image = "brno.jpg"`. -/
theorem drawCard_image_failure_witness :
    imageOnlyRecord.image = some "brno.jpg" ∧
    failEnv.openImageOk "brno.jpg" = false ∧
    drawCard failEnv 0 0 imageOnlyRecord =
      drawCard failEnv 0 0 { imageOnlyRecord with image := none } :=
  ⟨rfl, rfl, drawCard_image_failure failEnv 0 0 imageOnlyRecord "brno.jpg" rfl rfl⟩

theorem chunk9_nil {α : Type} : chunk9 ([] : List α) = [] := by
  rw [chunk9]

theorem chunk9_cons {α : Type} (a : α) (l : List α) :
    chunk9 (a :: l) = ((a :: l).take 9) :: chunk9 ((a :: l).drop 9) := by
  rw [chunk9]

theorem chunk9_append_of_length_eq {α : Type} (x rest : List α) (h : x.length = 9) :
    chunk9 (x ++ rest) = x :: chunk9 rest := by
  cases x with
  | nil => simp at h
  | cons c cs =>
    rw [List.cons_append, chunk9_cons, ← List.cons_append]
    congr 1
    · exact List.take_left' h
    · rw [List.drop_left' h]

theorem chunk9_singleton_of_short {α : Type} (x : List α) (hne : x ≠ [])
    (h : x.length ≤ 9) : chunk9 x = [x] := by
  cases x with
  | nil => exact absurd rfl hne
  | cons c cs =>
    rw [chunk9_cons, List.take_of_length_le h, List.drop_eq_nil_of_le h, chunk9_nil]

theorem chunk9_length {α : Type} :
    ∀ (n : ℕ) (l : List α), l.length = n → (chunk9 l).length = (n + 8) / 9 := by
  intro n
  induction n using Nat.strong_induction_on with
  | _ n ih =>
    intro l hl
    match l with
    | [] =>
      have hn : n = 0 := by simpa using hl.symm
      rw [chunk9_nil]
      simp [hn]
    | a :: t =>
      have hl' : t.length + 1 = n := by simpa using hl
      rw [chunk9_cons]
      by_cases h9 : t.length + 1 ≤ 9
      · rw [List.drop_eq_nil_of_le (by simpa using h9), chunk9_nil]
        simp
        omega
      · have hdlen : ((a :: t).drop 9).length = n - 9 := by
          rw [List.length_drop]
          simp
          omega
        have hrec := ih (n - 9) (by omega) _ hdlen
        rw [List.length_cons, hrec]
        omega

theorem chunk9_dropLast_length {α : Type} :
    ∀ (n : ℕ) (l : List α), l.length = n → ∀ p ∈ (chunk9 l).dropLast, p.length = 9 := by
  intro n
  induction n using Nat.strong_induction_on with
  | _ n ih =>
    intro l hl p hp
    match l with
    | [] =>
      rw [chunk9_nil] at hp
      simp at hp
    | a :: t =>
      have hl' : t.length + 1 = n := by simpa using hl
      by_cases h9 : t.length + 1 ≤ 9
      · rw [chunk9_singleton_of_short _ (by simp) (by simpa using h9)] at hp
        simp at hp
      · have hdne : (a :: t).drop 9 ≠ [] := by
          intro hcon
          have hcl := congrArg List.length hcon
          rw [List.length_drop] at hcl
          simp at hcl
          omega
        have hcne : chunk9 ((a :: t).drop 9) ≠ [] := by
          intro hcon
          cases hd : (a :: t).drop 9 with
          | nil => exact hdne hd
          | cons b bs =>
            rw [hd, chunk9_cons] at hcon
            simp at hcon
        rw [chunk9_cons, List.dropLast_cons_of_ne_nil hcne] at hp
        rcases List.mem_cons.mp hp with hp1 | hp2
        · subst hp1
          rw [List.length_take]
          simp
          omega
        · have hdlen : ((a :: t).drop 9).length = n - 9 := by
            rw [List.length_drop]
            simp
            omega
          exact ih (n - 9) (by omega) _ hdlen p hp2

theorem chunk9_getLast_length {α : Type} :
    ∀ (n : ℕ) (l : List α), l.length = n → 0 < n →
      (chunk9 l).getLast?.map List.length = some (if n % 9 = 0 then 9 else n % 9) := by
  intro n
  induction n using Nat.strong_induction_on with
  | _ n ih =>
    intro l hl hpos
    match l with
    | [] =>
      have : n = 0 := by simpa using hl.symm
      omega
    | a :: t =>
      have hl' : t.length + 1 = n := by simpa using hl
      by_cases h9 : t.length + 1 ≤ 9
      · rw [chunk9_singleton_of_short _ (by simp) (by simpa using h9)]
        have hval : t.length + 1 = if n % 9 = 0 then 9 else n % 9 := by
          by_cases hm : n % 9 = 0
          · rw [if_pos hm]
            omega
          · rw [if_neg hm]
            omega
        simp [← hval]
      · have hdne : (a :: t).drop 9 ≠ [] := by
          intro hcon
          have hcl := congrArg List.length hcon
          rw [List.length_drop] at hcl
          simp at hcl
          omega
        have hdlen : ((a :: t).drop 9).length = n - 9 := by
          rw [List.length_drop]
          simp
          omega
        have hrec := ih (n - 9) (by omega) _ hdlen (by omega)
        rw [chunk9_cons]
        cases hd : (a :: t).drop 9 with
        | nil => exact absurd hd hdne
        | cons b bs =>
          have hmod : (n - 9) % 9 = n % 9 := by omega
          rw [hmod, hd] at hrec
          rw [chunk9_cons] at hrec ⊢
          rw [← hrec]
          rfl

theorem goPages_eq_chunk9 {α : Type} (total : ℕ) :
    ∀ (rest : List α) (count : ℕ) (cur : List α) (pages : List (List α)),
      count + rest.length = total →
      cur.length = count % 9 →
      goPages total rest count cur pages = pages ++ chunk9 (cur ++ rest) := by
  intro rest
  induction rest with
  | nil =>
    intro count cur pages htot hcur
    match hc : cur with
    | [] => simp [goPages, chunk9_nil]
    | c :: cs =>
      show (goPages total [] count (c :: cs) pages) = _
      have hm9 : count % 9 < 9 := Nat.mod_lt count (by omega)
      have hle : (c :: cs).length ≤ 9 := by omega
      rw [List.append_nil, chunk9_singleton_of_short _ (by simp) hle]
      rfl
  | cons a rest ih =>
    intro count cur pages htot hcur
    have htot' : count + rest.length + 1 = total := by
      rw [List.length_cons] at htot
      omega
    show goPages total (a :: rest) count cur pages = _
    rw [goPages]
    by_cases hflush : (count + 1) % 9 = 0 ∧ count + 1 < total
    · obtain ⟨hf1, hf2⟩ := hflush
      rw [if_pos ⟨hf1, hf2⟩]
      have hcur8 : cur.length = 8 := by omega
      have hrec := ih (count + 1) [] (pages ++ [cur ++ [a]])
        (by omega) (by simpa using hf1.symm)
      rw [List.nil_append] at hrec
      rw [hrec]
      have hsplit : cur ++ a :: rest = (cur ++ [a]) ++ rest := by simp
      rw [hsplit, chunk9_append_of_length_eq _ _ (by simp; omega)]
      simp
    · rw [if_neg hflush]
      by_cases hmod : (count + 1) % 9 = 0
      · have hrest : rest = [] := by
          have hlt : ¬ count + 1 < total := fun hcl => hflush ⟨hmod, hcl⟩
          have : rest.length = 0 := by omega
          exact List.length_eq_zero.mp this
        subst hrest
        have hlen9 : (cur ++ [a]).length = 9 := by simp; omega
        have hchunk : chunk9 (cur ++ [a]) = [cur ++ [a]] :=
          chunk9_singleton_of_short _ (by simp) (le_of_eq hlen9)
        have hgoal : goPages total [] (count + 1) (cur ++ [a]) pages
            = pages ++ [cur ++ [a]] := by
          cases hc : cur ++ [a] with
          | nil => simp at hc
          | cons c cs => rfl
        rw [hgoal]
        have hone : cur ++ a :: ([] : List α) = cur ++ [a] := by simp
        rw [hone, hchunk]
      · have hrec := ih (count + 1) (cur ++ [a]) pages
          (by omega) (by simp; omega)
        rw [hrec]
        have hsplit : (cur ++ [a]) ++ rest = cur ++ a :: rest := by simp
        rw [hsplit]

theorem generatePdfPages_eq_chunk9 {α : Type} (deck : List α) :
    generatePdfPages deck = chunk9 deck := by
  unfold generatePdfPages
  rw [goPages_eq_chunk9 deck.length deck 0 [] [] (by simp) (by simp)]
  simp

/-- C1: with `cards_per_page = 9`, an empty deck emits no page, and a
nonempty deck of `N` records emits `⌈N / 9⌉ = (N + 8) / 9` pages; every page
but the last carries exactly 9 cards, and the last carries `N mod 9` cards
when that is nonzero and 9 otherwise. -/
theorem generatePdfPages_pagination (deck : List CardRecord) :
    (deck.length = 0 → generatePdfPages deck = []) ∧
    (0 < deck.length →
      (generatePdfPages deck).length = (deck.length + 8) / 9 ∧
      (∀ p ∈ (generatePdfPages deck).dropLast, p.length = 9) ∧
      (generatePdfPages deck).getLast?.map List.length =
        some (if deck.length % 9 = 0 then 9 else deck.length % 9)) := by
  constructor
  · intro h
    have hdnil : deck = [] := List.length_eq_zero.mp h
    subst hdnil
    rw [generatePdfPages_eq_chunk9, chunk9_nil]
  · intro h
    rw [generatePdfPages_eq_chunk9]
    exact ⟨chunk9_length deck.length deck rfl,
           chunk9_dropLast_length deck.length deck rfl,
           chunk9_getLast_length deck.length deck rfl h⟩

/-- C1 witness: the ten-record deck paginates into two pages, the first
with nine cards and the second with the single remaining card. -/
theorem generatePdfPages_pagination_witness :
    0 < sampleDeck.length ∧
    ((generatePdfPages sampleDeck).length = (sampleDeck.length + 8) / 9 ∧
     (∀ p ∈ (generatePdfPages sampleDeck).dropLast, p.length = 9) ∧
     (generatePdfPages sampleDeck).getLast?.map List.length =
       some (if sampleDeck.length % 9 = 0 then 9 else sampleDeck.length % 9)) :=
  ⟨by simp [sampleDeck],
   (generatePdfPages_pagination sampleDeck).2 (by simp [sampleDeck])⟩

end Cards
